import Mathlib

/-!
Verification of the build-automation scripts of the rust-opus repository.

The repository consists of four Python command-line utilities:
`strip_weights.py`, `generate_weights.py`, `check_opus_version.py` and
`vendor_opus.py`.  We shallowly embed the relevant functions here.

Embedding conventions:
- A file's text is represented by its characters, `List Char`; line-oriented
  processing (Python's `content.split('\n')`) is represented by a list of
  lines, `List (List Char)`, each line newline-free.
- Python string primitives used by the scripts (`str.strip`, `str.startswith`,
  `in`, `str.replace`, `str.split`) are embedded as executable list functions
  with the same semantics (`pyStrip`, `List.isPrefixOf`, `listContains`,
  `listReplace`, `splitLines`).
- Filesystem reads/writes are explicit: the functions take the file content
  (or `Option` thereof, `none` = file absent) and return the written content.
- External collaborators (git, the network, the C compiler, `hashlib.md5`)
  are parameters of the embedding: a success/failure flag or, for the digest,
  an opaque function argument.
- Python exceptions are `Except String`; `sys.exit(k)` / `return k` is modelled
  as the resulting process exit code.
-/

set_option maxRecDepth 100000

namespace RustOpus

/-! ## strip_weights.py -/

/-- The guard token of `strip_weights.py`: a line whose `strip()` equals this
opens the weights block (line 62 of `strip_weights.py`). -/
def guardChars : List Char := "#ifndef USE_WEIGHTS_FILE".data

/-- The comment inserted right after the opening guard line
(line 67 of `strip_weights.py`). -/
def commentChars : List Char :=
  "/* Weight data stripped by strip_weights.py for crate size reduction */".data

/-- Embeds Python's `str.strip()`: remove leading and trailing whitespace. -/
def pyStrip (l : List Char) : List Char :=
  ((l.dropWhile Char.isWhitespace).reverse.dropWhile Char.isWhitespace).reverse

/-- Prefix token for conditional-open directives (`stripped.startswith('#if')`). -/
def ifChars : List Char := "#if".data

/-- Prefix token for conditional-close directives (`stripped.startswith('#endif')`). -/
def endifChars : List Char := "#endif".data

/-- The line scan of `strip_weights_from_file` (lines 53-86 of
`strip_weights.py`): state is `in_weights_block` and the signed `depth`
counter; returns `(new_lines, removed_lines)`.  Python's `depth -= 1` followed
by `if depth == 0` is the `depth - 1 = 0` test. -/
def stripGo : Bool → Int → List (List Char) → List (List Char) × Nat
  | _, _, [] => ([], 0)
  | inB, depth, l :: ls =>
    if pyStrip l = guardChars then
      let r := stripGo true 1 ls
      (l :: commentChars :: r.1, r.2)
    else if inB then
      if ifChars.isPrefixOf (pyStrip l) then
        let r := stripGo true (depth + 1) ls
        (r.1, r.2 + 1)
      else if endifChars.isPrefixOf (pyStrip l) then
        if depth - 1 = 0 then
          let r := stripGo false 0 ls
          (l :: r.1, r.2)
        else
          let r := stripGo true (depth - 1) ls
          (r.1, r.2 + 1)
      else
        let r := stripGo inB depth ls
        (r.1, r.2 + 1)
    else
      let r := stripGo false 0 ls
      (l :: r.1, r.2)

/-- The whole-file line transformation: scan starts outside any block. -/
def stripLines (content : List (List Char)) : List (List Char) × Nat :=
  stripGo false 0 content

/-- Depth contribution of one line, mirroring the branch order of the scan:
`+1` for a `#if`-prefixed line, `-1` for a `#endif`-prefixed line, else `0`. -/
def lineDelta (l : List Char) : Int :=
  if ifChars.isPrefixOf (pyStrip l) then 1
  else if endifChars.isPrefixOf (pyStrip l) then -1
  else 0

/-- Net depth change over a list of lines. -/
def deltaSum (ls : List (List Char)) : Int := (ls.map lineDelta).sum

/-- One transition of the `(in_weights_block, depth)` state of the scan. -/
def scanStep (st : Bool × Int) (l : List Char) : Bool × Int :=
  if pyStrip l = guardChars then (true, 1)
  else if st.1 then
    if ifChars.isPrefixOf (pyStrip l) then (true, st.2 + 1)
    else if endifChars.isPrefixOf (pyStrip l) then
      if st.2 - 1 = 0 then (false, 0) else (true, st.2 - 1)
    else st
  else (false, 0)

/-- The `(in_weights_block, depth)` state after scanning a list of lines. -/
def scanState (st : Bool × Int) (ls : List (List Char)) : Bool × Int :=
  ls.foldl scanStep st

/-- Result of `strip_weights_from_file` on a present file: the computed new
content, the removed-line count, whether the file was written back
(lines 91-92: only when not `dry_run` and `removed_lines > 0`), and the file
content on disk afterwards. -/
structure StripFileResult where
  newContent : List (List Char)
  removed : Nat
  wrote : Bool
  diskAfter : List (List Char)
deriving DecidableEq

/-- Embeds `strip_weights_from_file` (lines 33-94 of `strip_weights.py`) for a
present file, with the write-back decision made explicit. -/
def strip_weights_from_file (content : List (List Char)) (dryRun : Bool) :
    StripFileResult :=
  let r := stripGo false 0 content
  let w := !dryRun && decide (0 < r.2)
  { newContent := r.1
    removed := r.2
    wrote := w
    diskAfter := if w = true then r.1 else content }

/-- Embeds Python's `content.split('\n')`. -/
def splitLines (s : List Char) : List (List Char) :=
  s.foldr
    (fun c acc =>
      match acc with
      | [] => [[c]]
      | cur :: rest => if c = '\n' then [] :: cur :: rest else (c :: cur) :: rest)
    [[]]

/-- Embeds Python's `'\n'.join(lines)`. -/
def joinLines (ls : List (List Char)) : List Char := List.intercalate ['\n'] ls

/-- UTF-8 byte length of a text, Python's `len(s.encode('utf-8'))`. -/
def utf8Len (l : List Char) : Nat := (l.map Char.utf8Size).sum

/-- The `(original_size, new_size)` pair computed by `strip_weights_from_file`
(lines 43-44 and 88-89 of `strip_weights.py`). -/
def strip_file_sizes (content : List Char) : Nat × Nat :=
  let r := stripGo false 0 (splitLines content)
  (utf8Len content, utf8Len (joinLines r.1))

/-- The fixed file list of `strip_weights.py` (lines 22-31). -/
def DATA_FILES : List String :=
  ["pitchdnn_data.c", "fargan_data.c", "plc_data.c", "dred_rdovae_enc_data.c",
   "dred_rdovae_dec_data.c", "lace_data.c", "nolace_data.c", "bbwenet_data.c"]

/-- Process outcome of `strip_weights.py` `main`: `sys.exit(1)` when the DNN
directory is missing, an uncaught `ZeroDivisionError` from the final
`total_new / total_original` print (line 136) when `total_original = 0`
(process status 1), or a normal return (status 0). -/
inductive StripMainOutcome
  | exitZero
  | exitOne
  | divByZero
deriving DecidableEq

/-- Per-file sizes in the `main` loop: a missing file yields `(0, 0)`
(lines 39-41 of `strip_weights.py`). -/
def fileSizes (fs : String → Option (List Char)) (name : String) : Nat × Nat :=
  match fs name with
  | none => (0, 0)
  | some c => strip_file_sizes c

/-- Embeds `main` of `strip_weights.py` (lines 97-144): the filesystem is
`dnnExists` plus the map from data-file name to content.  Totals accumulate
only for files with `original > 0` (line 122), and the final aggregate print
divides by `total_original`. -/
def strip_main (dnnExists : Bool) (fs : String → Option (List Char)) :
    StripMainOutcome :=
  if dnnExists = false then .exitOne
  else
    let totals := DATA_FILES.foldl
      (fun acc name =>
        let r := fileSizes fs name
        if 0 < r.1 then (acc.1 + r.1, acc.2 + r.2) else acc)
      (0, 0)
    if totals.1 = 0 then .divByZero else .exitZero

/-! ## generate_weights.py: the two source patches -/

/-- Embeds Python's `pat in s` substring test. -/
def listContains : List Char → List Char → Bool
  | [], pat => pat.isEmpty
  | c :: rest, pat => pat.isPrefixOf (c :: rest) || listContains rest pat

/-- Fuel-indexed worker for `listReplace`; fuel is at least the length of the
remaining text, so the `0, s => s` clause is never reached on the lengths we
pass. -/
def listReplaceGo (pat rep : List Char) : Nat → List Char → List Char
  | 0, s => s
  | _ + 1, [] => []
  | fuel + 1, c :: rest =>
    if pat.isPrefixOf (c :: rest) then
      rep ++ listReplaceGo pat rep fuel (rest.drop (pat.length - 1))
    else
      c :: listReplaceGo pat rep fuel rest

/-- Embeds Python's `s.replace(pat, rep)`: leftmost, non-overlapping
replacement of every occurrence (the scripts only use non-empty patterns). -/
def listReplace (s pat rep : List Char) : List Char :=
  if pat.isEmpty then s else listReplaceGo pat rep s.length s

/-- Already-applied marker of the binary-mode patch (`'"wb"' in content`). -/
def wbMarker : List Char := "\"wb\"".data

/-- Anchor of the binary-mode patch (line 101 of `generate_weights.py`). -/
def oldFopenLine : List Char := "fopen(\"weights_blob.bin\", \"w\")".data

/-- Replacement of the binary-mode patch (line 102 of `generate_weights.py`). -/
def newFopenLine : List Char := "fopen(\"weights_blob.bin\", \"wb\")".data

/-- Already-applied marker of the BWE patch (`'ENABLE_OSCE_BWE' in content`). -/
def bweMarker : List Char := "ENABLE_OSCE_BWE".data

/-- First anchor of the BWE patch (lines 127-130 of `generate_weights.py`). -/
def oldIncludeBlock : List Char :=
  "#ifdef ENABLE_OSCE\n#include \"lace_data.c\"\n#include \"nolace_data.c\"\n#endif".data

/-- Replacement for the first BWE anchor (lines 131-137). -/
def newIncludeBlock : List Char :=
  "#ifdef ENABLE_OSCE\n#include \"lace_data.c\"\n#include \"nolace_data.c\"\n#endif\n#ifdef ENABLE_OSCE_BWE\n#include \"bbwenet_data.c\"\n#endif".data

/-- Second anchor of the BWE patch (lines 145-153 of `generate_weights.py`). -/
def oldMainBlock : List Char :=
  "#ifdef ENABLE_OSCE\n#ifndef DISABLE_LACE\n  write_weights(lacelayers_arrays, fout);\n#endif\n#ifndef DISABLE_NOLACE\n  write_weights(nolacelayers_arrays, fout);\n#endif\n#endif\n  fclose(fout);".data

/-- Replacement for the second BWE anchor (lines 154-167). -/
def newMainBlock : List Char :=
  "#ifdef ENABLE_OSCE\n#ifndef DISABLE_LACE\n  write_weights(lacelayers_arrays, fout);\n#endif\n#ifndef DISABLE_NOLACE\n  write_weights(nolacelayers_arrays, fout);\n#endif\n#endif\n#ifdef ENABLE_OSCE_BWE\n#ifndef DISABLE_BBWENET\n  write_weights(bbwenetlayers_arrays, fout);\n#endif\n#endif\n  fclose(fout);".data

/-- Embeds `apply_binary_mode_patch` (lines 86-109 of `generate_weights.py`)
as a content transformation: skip when already patched, fail when the anchor
is absent, otherwise replace. -/
def apply_binary_mode_patch (content : List Char) : Except String (List Char) :=
  if listContains content wbMarker then .ok content
  else if listContains content oldFopenLine = false then
    .error "Could not find fopen line to patch"
  else .ok (listReplace content oldFopenLine newFopenLine)

/-- Embeds `apply_bwe_weights_patch` (lines 112-174 of `generate_weights.py`):
skip when already patched, replace the include anchor, then check and replace
the main anchor (the second check runs on the once-replaced content, as in the
source). -/
def apply_bwe_weights_patch (content : List Char) : Except String (List Char) :=
  if listContains content bweMarker then .ok content
  else if listContains content oldIncludeBlock = false then
    .error "Could not find OSCE include block to patch"
  else
    let c1 := listReplace content oldIncludeBlock newIncludeBlock
    if listContains c1 oldMainBlock = false then
      .error "Could not find main() block to patch"
    else .ok (listReplace c1 oldMainBlock newMainBlock)

/-- File-level `apply_binary_mode_patch`: the disk is the optional content of
`dnn/write_lpcnet_weights.c`; `write_text` happens only on the success path,
so on any failure the disk is unchanged. -/
def apply_binary_mode_patch_file (disk : Option (List Char)) :
    Except String Unit × Option (List Char) :=
  match disk with
  | none => (.error "write_lpcnet_weights.c not found", none)
  | some c =>
    match apply_binary_mode_patch c with
    | .error e => (.error e, some c)
    | .ok c2 => (.ok (), some c2)

/-- File-level `apply_bwe_weights_patch`; as in the source, the single
`write_text` happens after both replacements succeeded. -/
def apply_bwe_weights_patch_file (disk : Option (List Char)) :
    Except String Unit × Option (List Char) :=
  match disk with
  | none => (.error "write_lpcnet_weights.c not found", none)
  | some c =>
    match apply_bwe_weights_patch c with
    | .error e => (.error e, some c)
    | .ok c2 => (.ok (), some c2)

/-! ## generate_weights.py: the generator pipeline -/

/-- Content of an output file: the binary blob or a text sidecar. -/
inductive FileData
  | binF (b : List Nat)
  | textF (s : String)
deriving DecidableEq

/-- External inputs of one `generate_weights` run: outcomes of the external
collaborators (git clone, model download, compiler, generated tool) and the
data they deliver.  `md5hex` is the external `hashlib.md5(...).hexdigest()`. -/
structure GenEnv where
  vendoredCommit : Option String
  cloneOk : Bool
  modelHash : Option String
  downloadOk : Bool
  writeWeightsSrc : Option (List Char)
  compilerFound : Bool
  compileOk : Bool
  runOk : Bool
  blob : Option (List Nat)
  md5hex : List Nat → String

/-- Observable outcome of `generate_weights`: the returned pair of paths (or
the raised error), whether the temporary directory was removed, and the files
written to the output directory. -/
structure GenOutcome where
  result : Except String (String × String)
  tempRemoved : Bool
  outputs : List (String × FileData)

/-- Blob filename selection (lines 405-408 of `generate_weights.py`). -/
def binBlobName : Option String → String
  | some h => "opus_data-" ++ h ++ ".bin"
  | none => "opus_data.bin"

/-- Embeds `generate_weights` (lines 345-432 of `generate_weights.py`).  The
temporary directory is created before the `try:` block; every exit path below
records `tempRemoved := true`, mirroring the unconditional `finally:` cleanup.
Step order follows the source: clone, model hash + download (`download_model`
raises when the hash is `None`), the two patches (applied to the cloned
`write_lpcnet_weights.c` content), compiler discovery, compilation, running
the tool, checking the blob exists, then copying the blob and writing the MD5
sidecar `f"{md5_value}  {bin_name}\n"`. -/
def generate_weights (env : GenEnv) : GenOutcome :=
  if env.cloneOk = false then
    { result := .error "Command failed", tempRemoved := true, outputs := [] }
  else
    match env.modelHash with
    | none =>
      { result := .error "No model hash provided - cannot download model"
        tempRemoved := true, outputs := [] }
    | some _ =>
      if env.downloadOk = false then
        { result := .error "Command failed", tempRemoved := true, outputs := [] }
      else
        match env.writeWeightsSrc with
        | none =>
          { result := .error "write_lpcnet_weights.c not found"
            tempRemoved := true, outputs := [] }
        | some src =>
          match apply_binary_mode_patch src with
          | .error e => { result := .error e, tempRemoved := true, outputs := [] }
          | .ok src1 =>
            match apply_bwe_weights_patch src1 with
            | .error e => { result := .error e, tempRemoved := true, outputs := [] }
            | .ok _ =>
              if env.compilerFound = false then
                { result := .error "No C compiler found"
                  tempRemoved := true, outputs := [] }
              else if env.compileOk = false then
                { result := .error "Compilation failed"
                  tempRemoved := true, outputs := [] }
              else if env.runOk = false then
                { result := .error "Command failed"
                  tempRemoved := true, outputs := [] }
              else
                match env.blob with
                | none =>
                  { result := .error "weights_blob.bin was not created"
                    tempRemoved := true, outputs := [] }
                | some b =>
                  let binName := binBlobName env.modelHash
                  let md5Value := env.md5hex b
                  { result := .ok (binName, binName ++ ".md5")
                    tempRemoved := true
                    outputs :=
                      [(binName, .binF b),
                       (binName ++ ".md5", .textF (md5Value ++ "  " ++ binName ++ "\n"))] }

/-! ## check_opus_version.py -/

/-- Character class `[a-fA-F0-9]` of the manifest regex. -/
def hexChar (c : Char) : Bool :=
  c.isDigit || ('a' ≤ c && c ≤ 'f') || ('A' ≤ c && c ≤ 'F')

/-- Match of the regex `^commit:\s*([a-fA-F0-9]+)` against one line: the line
must start with `commit:`, then optional whitespace, then at least one hex
character; the captured group is the maximal hex run. -/
def commitLineValue (l : List Char) : Option (List Char) :=
  if ("commit:".data).isPrefixOf l then
    let hex := ((l.drop 7).dropWhile Char.isWhitespace).takeWhile hexChar
    if hex.isEmpty then none else some hex
  else none

/-- Embeds `get_vendored_commit` (lines 23-30 of `check_opus_version.py`):
`None` when the file is absent or no line matches, else the first match. -/
def get_vendored_commit (file : Option (List (List Char))) : Option (List Char) :=
  match file with
  | none => none
  | some lines => lines.findSome? commitLineValue

/-- Embeds `main` of `check_opus_version.py` (lines 33-51).  The manifest file
is the local state (returned unchanged: the checker performs no writes); the
remote lookup is `Except Unit` (`.error` = transport failure, which the code
does not catch).  With no parsed commit the function returns 1 before the
lookup is consulted. -/
def check_main (manifest : Option (List (List Char)))
    (lookup : Except Unit (List Char)) :
    Except Unit Nat × Option (List (List Char)) :=
  match get_vendored_commit manifest with
  | none => (.ok 1, manifest)
  | some vendored =>
    match lookup with
    | .error e => (.error e, manifest)
    | .ok latest => (.ok (if vendored = latest then 0 else 1), manifest)

/-! ## vendor_opus.py -/

/-- Local state touched by `vendor_opus.py`: whether `vendored/opus` exists,
the commit recorded in `vendored/OPUS_VERSION`, and whether `src/bindings.rs`
has been (re)generated this run. -/
structure VendorFS where
  opusDir : Bool
  manifestCommit : Option (List Char)
  bindings : Bool
deriving DecidableEq

/-- Embeds `main` of `vendor_opus.py` (lines 219-335).  `lookup` is the GitHub
latest-commit query: on failure the source catches the exception, logs a
warning and substitutes the sentinel sha `"unknown"` (lines 267-273).
`cloneRes` is the outcome of `clone_repo` (the resolved commit on success; on
failure the vendored directory has already been removed and `main` exits 1).
The model-download step is best-effort in the source and the binding generator
is modelled as succeeding; neither changes the tracked state beyond
`bindings`. -/
def vendor_main (bindingsOnly force : Bool) (lookup : Except String (List Char))
    (cloneRes : Except String (List Char)) (fs : VendorFS) :
    Except String Nat × VendorFS :=
  if bindingsOnly then
    if fs.opusDir then (.ok 0, { fs with bindings := true })
    else (.ok 1, fs)
  else
    let sha := match lookup with
      | .ok s => s
      | .error _ => "unknown".data
    let upToDate := match fs.manifestCommit with
      | some cur => decide (sha ≠ "unknown".data) && decide (cur = sha) && !force
      | none => false
    if upToDate then (.ok 0, fs)
    else
      match cloneRes with
      | .error _ => (.ok 1, { fs with opusDir := false })
      | .ok actual =>
        (.ok 0, { fs with opusDir := true, manifestCommit := some actual, bindings := true })

/-! ## Helper lemmas -/

/-- Bridge between the executable `isPrefixOf` and the `<+:` relation. -/
theorem isPrefixOf_true_iff (l₁ l₂ : List Char) : l₁.isPrefixOf l₂ = true ↔ l₁ <+: l₂ :=
  List.isPrefixOf_iff_prefix

/-- Correctness of the embedded substring test: it decides `<:+:`. -/
theorem listContains_true_iff (s pat : List Char) : listContains s pat = true ↔ pat <:+: s := by
  induction s with
  | nil =>
    simp only [listContains, List.isEmpty_iff]
    exact (List.infix_nil).symm
  | cons c rest ih =>
    simp only [listContains, Bool.or_eq_true, isPrefixOf_true_iff, ih]
    exact (List.infix_cons_iff).symm

/-- A cons on the left preserves the infix relation. -/
theorem infix_of_cons {a : Char} {l₁ l₂ : List Char} (h : l₁ <:+: l₂) : l₁ <:+: a :: l₂ := by
  obtain ⟨t, u, rfl⟩ := h
  exact ⟨a :: t, u, rfl⟩

/-- After a successful replacement, the replacement text occurs in the result
(worker version, fuel bounds the scanned length). -/
theorem rep_infix_listReplaceGo (pat rep : List Char) (hpat : pat ≠ []) :
    ∀ (fuel : Nat) (s : List Char), s.length ≤ fuel → pat <:+: s →
      rep <:+: listReplaceGo pat rep fuel s := by
  intro fuel
  induction fuel with
  | zero =>
    intro s hlen hinf
    have hs : s = [] := List.length_eq_zero.mp (Nat.le_zero.mp hlen)
    subst hs
    exact absurd ((List.infix_nil).mp hinf) hpat
  | succ n ih =>
    intro s hlen hinf
    match s with
    | [] => exact absurd ((List.infix_nil).mp hinf) hpat
    | c :: rest =>
      by_cases hp : pat.isPrefixOf (c :: rest)
      · simp only [listReplaceGo, hp, if_true]
        exact (List.prefix_append rep _).isInfix
      · simp only [listReplaceGo, hp, if_false, Bool.false_eq_true]
        have hinf' : pat <:+: rest := by
          rcases (List.infix_cons_iff).mp hinf with h | h
          · exact absurd ((isPrefixOf_true_iff pat (c :: rest)).mpr h) hp
          · exact h
        have hlen' : rest.length ≤ n := by
          simp only [List.length_cons] at hlen
          omega
        exact infix_of_cons (ih rest hlen' hinf')

/-- After a successful replacement, the replacement text occurs in the result. -/
theorem rep_infix_listReplace (s pat rep : List Char) (hpat : pat ≠ [])
    (h : pat <:+: s) : rep <:+: listReplace s pat rep := by
  have hne : pat.isEmpty = false := by
    cases pat with
    | nil => exact absurd rfl hpat
    | cons a t => rfl
  simp only [listReplace, hne, Bool.false_eq_true, if_false]
  exact rep_infix_listReplaceGo pat rep hpat s.length s le_rfl h

/-- If the old text occurs in the content, the result of the binary-mode
replacement contains the `"wb"` marker. -/
theorem wb_in_replaced (c : List Char) (h : listContains c oldFopenLine = true) :
    listContains (listReplace c oldFopenLine newFopenLine) wbMarker = true := by
  rw [listContains_true_iff]
  have h1 : wbMarker <:+: newFopenLine := by decide
  have h2 : newFopenLine <:+: listReplace c oldFopenLine newFopenLine :=
    rep_infix_listReplace c oldFopenLine newFopenLine (by decide)
      ((listContains_true_iff c oldFopenLine).mp h)
  exact h1.trans h2

/-- If the main-block anchor occurs, the BWE-patched result contains the
`ENABLE_OSCE_BWE` marker. -/
theorem bwe_in_replaced (c : List Char) (h : listContains c oldMainBlock = true) :
    listContains (listReplace c oldMainBlock newMainBlock) bweMarker = true := by
  rw [listContains_true_iff]
  have h1 : bweMarker <:+: newMainBlock := by decide
  have h2 : newMainBlock <:+: listReplace c oldMainBlock newMainBlock :=
    rep_infix_listReplace c oldMainBlock newMainBlock (by decide)
      ((listContains_true_iff c oldMainBlock).mp h)
  exact h1.trans h2

/-! ## Claim C5 -/

/-- Claim C5: each of the two source patches is idempotent — composing a patch
function with itself (propagating failures) equals a single application,
because a successful first application leaves the already-applied marker
(`"wb"`, resp. `ENABLE_OSCE_BWE`) in the content and the second application
detects it and changes nothing. -/
theorem patch_idempotent_thm (c : List Char) :
    (apply_binary_mode_patch c).bind apply_binary_mode_patch = apply_binary_mode_patch c ∧
    (apply_bwe_weights_patch c).bind apply_bwe_weights_patch = apply_bwe_weights_patch c := by
  constructor
  · by_cases h1 : listContains c wbMarker = true
    · simp [apply_binary_mode_patch, h1, Except.bind]
    · by_cases h2 : listContains c oldFopenLine = true
      · have h3 := wb_in_replaced c h2
        simp [apply_binary_mode_patch, h1, h2, Except.bind, h3]
      · simp only [Bool.not_eq_true] at h1 h2
        simp [apply_binary_mode_patch, h1, h2, Except.bind]
  · by_cases h1 : listContains c bweMarker = true
    · simp [apply_bwe_weights_patch, h1, Except.bind]
    · by_cases h2 : listContains c oldIncludeBlock = true
      · by_cases h3 : listContains (listReplace c oldIncludeBlock newIncludeBlock)
            oldMainBlock = true
        · have h4 := bwe_in_replaced _ h3
          simp [apply_bwe_weights_patch, h1, h2, h3, Except.bind, h4]
        · simp only [Bool.not_eq_true] at h1 h3
          simp [apply_bwe_weights_patch, h1, h2, h3, Except.bind]
      · simp only [Bool.not_eq_true] at h1 h2
        simp [apply_bwe_weights_patch, h1, h2, Except.bind]

/-! ## Claim C6 -/

/-- Claim C6: a content that contains neither the already-applied marker nor
the expected anchor makes each patch fail with its descriptive message while
the file on disk keeps its exact prior content; additionally, when the BWE
include anchor is present but the main anchor is not, the failure is raised
after the first in-memory replacement and still nothing is written (no partial
patch reaches the disk). -/
theorem patch_anchor_mismatch_thm (c : List Char)
    (hm : listContains c wbMarker = false)
    (ho : listContains c oldFopenLine = false)
    (hm2 : listContains c bweMarker = false)
    (ho2 : listContains c oldIncludeBlock = false) :
    apply_binary_mode_patch_file (some c) =
      (.error "Could not find fopen line to patch", some c) ∧
    apply_bwe_weights_patch_file (some c) =
      (.error "Could not find OSCE include block to patch", some c) ∧
    (∀ d : List Char, listContains d bweMarker = false →
      listContains d oldIncludeBlock = true →
      listContains (listReplace d oldIncludeBlock newIncludeBlock) oldMainBlock = false →
      apply_bwe_weights_patch_file (some d) =
        (.error "Could not find main() block to patch", some d)) := by
  refine ⟨?_, ?_, ?_⟩
  · simp [apply_binary_mode_patch_file, apply_binary_mode_patch, hm, ho]
  · simp [apply_bwe_weights_patch_file, apply_bwe_weights_patch, hm2, ho2]
  · intro d h1 h2 h3
    simp [apply_bwe_weights_patch_file, apply_bwe_weights_patch, h1, h2, h3]

/-- Witness for C6 at concrete inputs: a content with no marker and no anchors
for both patches, and a content with the include anchor but no main anchor. -/
theorem patch_anchor_mismatch_witness :
    apply_binary_mode_patch_file (some "static int x;".data) =
      (.error "Could not find fopen line to patch", some "static int x;".data) ∧
    apply_bwe_weights_patch_file (some oldIncludeBlock) =
      (.error "Could not find main() block to patch", some oldIncludeBlock) := by
  have h := patch_anchor_mismatch_thm "static int x;".data
    (by decide) (by decide) (by decide) (by decide)
  exact ⟨h.1, h.2.2 oldIncludeBlock (by decide) (by decide) (by decide)⟩

/-! ## Scan lemmas for strip_weights.py -/

/-- The inserted comment line does not strip to the guard token. -/
theorem comment_not_guard : ¬ (pyStrip commentChars = guardChars) := by decide

/-- The inserted comment line is not a conditional-open directive. -/
theorem comment_not_if : ifChars.isPrefixOf (pyStrip commentChars) = false := by decide

/-- The inserted comment line is not a conditional-close directive. -/
theorem comment_not_endif : endifChars.isPrefixOf (pyStrip commentChars) = false := by decide

/-- A line stripping to a `#endif` directive cannot be the opening guard. -/
theorem endif_not_guard {e : List Char} (he : endifChars.isPrefixOf (pyStrip e) = true) :
    ¬ (pyStrip e = guardChars) := by
  intro h
  rw [h] at he
  exact absurd he (by decide)

/-- Rescanning the output of the scan reproduces it, jointly for the
outside-block start state and any inside-block start state of depth `≥ 1`
(the two states reachable right after an emitted line). -/
theorem strip_rescan (ls : List (List Char)) :
    (stripGo false 0 (stripGo false 0 ls).1).1 = (stripGo false 0 ls).1 ∧
    ∀ d : Int, 1 ≤ d →
      (stripGo true 1 (stripGo true d ls).1).1 = (stripGo true d ls).1 := by
  induction ls with
  | nil => exact ⟨rfl, fun _ _ => rfl⟩
  | cons l t ih =>
    obtain ⟨ihP, ihQ⟩ := ih
    by_cases hg : pyStrip l = guardChars
    · have hstep : ∀ (inB : Bool) (d : Int),
          stripGo inB d (l :: t) =
            (l :: commentChars :: (stripGo true 1 t).1, (stripGo true 1 t).2) := by
        intro inB d
        cases inB <;> simp [stripGo, hg]
      have hre : ∀ (inB : Bool) (d : Int),
          (stripGo inB d (l :: commentChars :: (stripGo true 1 t).1)).1 =
            l :: commentChars :: (stripGo true 1 (stripGo true 1 t).1).1 := by
        intro inB d
        cases inB <;>
          simp [stripGo, hg, comment_not_guard, comment_not_if, comment_not_endif]
      constructor
      · rw [hstep false 0]
        rw [show ((l :: commentChars :: (stripGo true 1 t).1, (stripGo true 1 t).2)).1 =
          l :: commentChars :: (stripGo true 1 t).1 from rfl]
        rw [hre false 0, ihQ 1 le_rfl]
      · intro d hd
        rw [hstep true d]
        rw [show ((l :: commentChars :: (stripGo true 1 t).1, (stripGo true 1 t).2)).1 =
          l :: commentChars :: (stripGo true 1 t).1 from rfl]
        rw [hre true 1, ihQ 1 le_rfl]
    · constructor
      · have hstep : stripGo false 0 (l :: t) =
            (l :: (stripGo false 0 t).1, (stripGo false 0 t).2) := by
          simp [stripGo, hg]
        have hstep2 : stripGo false 0 (l :: (stripGo false 0 t).1) =
            (l :: (stripGo false 0 (stripGo false 0 t).1).1,
             (stripGo false 0 (stripGo false 0 t).1).2) := by
          simp [stripGo, hg]
        rw [hstep]
        simpa [hstep2] using ihP
      · intro d hd
        by_cases hif : ifChars.isPrefixOf (pyStrip l) = true
        · have hstep : stripGo true d (l :: t) =
              ((stripGo true (d+1) t).1, (stripGo true (d+1) t).2 + 1) := by
            simp [stripGo, hg, hif]
          rw [hstep]
          exact ihQ (d+1) (by omega)
        · by_cases hend : endifChars.isPrefixOf (pyStrip l) = true
          · by_cases hone : d - 1 = 0
            · have hstep : stripGo true d (l :: t) =
                  (l :: (stripGo false 0 t).1, (stripGo false 0 t).2) := by
                simp [stripGo, hg, hif, hend, hone]
              have hstep2 : stripGo true 1 (l :: (stripGo false 0 t).1) =
                  (l :: (stripGo false 0 (stripGo false 0 t).1).1,
                   (stripGo false 0 (stripGo false 0 t).1).2) := by
                simp [stripGo, hg, hif, hend]
              rw [hstep]
              simpa [hstep2] using ihP
            · have hstep : stripGo true d (l :: t) =
                  ((stripGo true (d-1) t).1, (stripGo true (d-1) t).2 + 1) := by
                simp [stripGo, hg, hif, hend, hone]
              rw [hstep]
              exact ihQ (d-1) (by omega)
          · have hstep : stripGo true d (l :: t) =
                ((stripGo true d t).1, (stripGo true d t).2 + 1) := by
              simp [stripGo, hg, hif, hend]
            rw [hstep]
            exact ihQ d hd

/-- A file with no opening guard line is scanned without change: every line is
copied and the removed-line count is `0`. -/
theorem stripGo_no_guard (c : List (List Char))
    (h : ∀ l ∈ c, pyStrip l ≠ guardChars) :
    stripGo false 0 c = (c, 0) := by
  induction c with
  | nil => rfl
  | cons l t ih =>
    have hl : pyStrip l ≠ guardChars := h l (by simp)
    have ht := ih (fun x hx => h x (by simp [hx]))
    simp [stripGo, hl, ht]

/-! ## Claim C2 -/

/-- Claim C2: the stripping transformation is idempotent on the file's text—
the computed content of a second application equals its input, and re-running
the tool on what the first run left on disk leaves the disk unchanged. -/
theorem strip_idempotent_thm (content : List (List Char)) (dryRun dryRun2 : Bool) :
    (strip_weights_from_file
        (strip_weights_from_file content dryRun).newContent dryRun2).newContent =
      (strip_weights_from_file content dryRun).newContent ∧
    (strip_weights_from_file
        (strip_weights_from_file content false).diskAfter false).diskAfter =
      (strip_weights_from_file content false).diskAfter := by
  have hdiskEq : ∀ (c : List (List Char)) (d : Bool),
      (strip_weights_from_file c d).diskAfter =
        if (!d && decide (0 < (stripGo false 0 c).2)) = true
        then (stripGo false 0 c).1 else c := fun _ _ => rfl
  constructor
  · exact (strip_rescan content).1
  · rw [hdiskEq content false]
    by_cases hw : (!false && decide (0 < (stripGo false 0 content).2)) = true
    · rw [if_pos hw, hdiskEq]
      by_cases hw2 :
          (!false && decide (0 < (stripGo false 0 (stripGo false 0 content).1).2)) = true
      · rw [if_pos hw2]
        exact (strip_rescan content).1
      · rw [if_neg hw2]
    · rw [if_neg hw, hdiskEq, if_neg hw]

/-! ## Claim C10 -/

/-- Claim C10: `strip_weights_from_file` writes back exactly when not in
dry-run mode and at least one line was discarded; dry-run never writes, and a
file with no opening guard line is left unchanged on disk in any mode (the
inserted comment is persisted only together with at least one removed line). -/
theorem strip_write_policy_thm (content : List (List Char)) (dryRun : Bool) :
    ((strip_weights_from_file content dryRun).wrote = true ↔
      dryRun = false ∧ 1 ≤ (strip_weights_from_file content dryRun).removed) ∧
    (dryRun = true → (strip_weights_from_file content dryRun).diskAfter = content) ∧
    ((∀ l ∈ content, pyStrip l ≠ guardChars) →
      (strip_weights_from_file content dryRun).wrote = false ∧
      (strip_weights_from_file content dryRun).diskAfter = content) := by
  refine ⟨?_, ?_, ?_⟩
  · cases dryRun
    · simp [strip_weights_from_file]
      try omega
    · simp [strip_weights_from_file]
      try omega
  · intro h
    subst h
    simp [strip_weights_from_file]
  · intro h
    have h0 := stripGo_no_guard content h
    simp [strip_weights_from_file, h0]

/-- Witness for C10: on a guardless file, outside dry-run mode, nothing is
written and the disk is unchanged. -/
theorem strip_write_policy_witness :
    (strip_weights_from_file ["int x;".data] false).wrote = false ∧
    (strip_weights_from_file ["int x;".data] false).diskAfter = ["int x;".data] :=
  (strip_write_policy_thm ["int x;".data] false).2.2 (by decide)

/-! ## Claim C1 -/

/-- Lines before the opening guard are copied unchanged to the output. -/
theorem stripGo_copies_outside (pre rest : List (List Char))
    (h : ∀ l ∈ pre, pyStrip l ≠ guardChars) :
    stripGo false 0 (pre ++ rest) =
      (pre ++ (stripGo false 0 rest).1, (stripGo false 0 rest).2) := by
  induction pre with
  | nil => simp
  | cons l t ih =>
    have hl : pyStrip l ≠ guardChars := h l (by simp)
    have ht := ih (fun x hx => h x (by simp [hx]))
    simp [stripGo, hl, ht]

/-- The depth delta of a cons decomposes. -/
theorem deltaSum_cons (l : List Char) (t : List (List Char)) :
    deltaSum (l :: t) = lineDelta l + deltaSum t := by
  simp [deltaSum]

/-- Inside the guarded block at depth `d ≥ 1`, a body whose nested conditionals
keep the depth at `≥ 1` at every prefix and net out to `d - 1 + 1 = 1` before
the closing line is discarded entirely: the scan emits exactly the closing
`#endif` line, then resumes outside, and counts every body line as removed. -/
theorem stripGo_inside_closes (e : List Char) (post : List (List Char))
    (he : endifChars.isPrefixOf (pyStrip e) = true)
    (hei : ifChars.isPrefixOf (pyStrip e) = false) :
    ∀ (body : List (List Char)) (d : Int), 1 ≤ d →
      (∀ l ∈ body, pyStrip l ≠ guardChars) →
      (∀ p, p <+: body → 1 ≤ d + deltaSum p) →
      d + deltaSum body = 1 →
      stripGo true d (body ++ e :: post) =
        (e :: (stripGo false 0 post).1, body.length + (stripGo false 0 post).2) := by
  intro body
  induction body with
  | nil =>
    intro d _ _ _ hsum
    have hd1 : d = 1 := by
      have : deltaSum [] = 0 := by simp [deltaSum]
      omega
    subst hd1
    have hge := endif_not_guard he
    simp [stripGo, hge, hei, he]
  | cons l t ih =>
    intro d hd hng hpre hsum
    have hl : pyStrip l ≠ guardChars := hng l (by simp)
    have hng' : ∀ x ∈ t, pyStrip x ≠ guardChars := fun x hx => hng x (by simp [hx])
    rw [deltaSum_cons] at hsum
    by_cases hif : ifChars.isPrefixOf (pyStrip l) = true
    · have hdelta : lineDelta l = 1 := by simp [lineDelta, hif]
      rw [hdelta] at hsum
      have hpre' : ∀ p, p <+: t → 1 ≤ (d + 1) + deltaSum p := by
        intro p hp
        have h := hpre (l :: p) ((List.cons_prefix_cons).mpr ⟨rfl, hp⟩)
        rw [deltaSum_cons, hdelta] at h
        omega
      have hrec := ih (d + 1) (by omega) hng' hpre' (by omega)
      have hstep : stripGo true d ((l :: t) ++ e :: post) =
          ((stripGo true (d + 1) (t ++ e :: post)).1,
           (stripGo true (d + 1) (t ++ e :: post)).2 + 1) := by
        simp [stripGo, hl, hif]
      rw [hstep, hrec]
      simp only [Prod.mk.injEq, List.length_cons]
      exact ⟨trivial, by omega⟩
    · by_cases hend : endifChars.isPrefixOf (pyStrip l) = true
      · have hdelta : lineDelta l = -1 := by simp [lineDelta, hif, hend]
        rw [hdelta] at hsum
        have h2 : 1 ≤ d + deltaSum [l] := hpre [l] ⟨t, rfl⟩
        have h3 : deltaSum [l] = -1 := by simp [deltaSum, lineDelta, hif, hend]
        rw [h3] at h2
        have hone : ¬ (d - 1 = 0) := by omega
        have hpre' : ∀ p, p <+: t → 1 ≤ (d - 1) + deltaSum p := by
          intro p hp
          have h := hpre (l :: p) ((List.cons_prefix_cons).mpr ⟨rfl, hp⟩)
          rw [deltaSum_cons, hdelta] at h
          omega
        have hrec := ih (d - 1) (by omega) hng' hpre' (by omega)
        have hstep : stripGo true d ((l :: t) ++ e :: post) =
            ((stripGo true (d - 1) (t ++ e :: post)).1,
             (stripGo true (d - 1) (t ++ e :: post)).2 + 1) := by
          simp [stripGo, hl, hif, hend, hone]
        rw [hstep, hrec]
        simp only [Prod.mk.injEq, List.length_cons]
        exact ⟨trivial, by omega⟩
      · have hdelta : lineDelta l = 0 := by simp [lineDelta, hif, hend]
        rw [hdelta] at hsum
        have hpre' : ∀ p, p <+: t → 1 ≤ d + deltaSum p := by
          intro p hp
          have h := hpre (l :: p) ((List.cons_prefix_cons).mpr ⟨rfl, hp⟩)
          rw [deltaSum_cons, hdelta] at h
          omega
        have hrec := ih d hd hng' hpre' (by omega)
        have hstep : stripGo true d ((l :: t) ++ e :: post) =
            ((stripGo true d (t ++ e :: post)).1,
             (stripGo true d (t ++ e :: post)).2 + 1) := by
          simp [stripGo, hl, hif, hend]
        rw [hstep, hrec]
        simp only [Prod.mk.injEq, List.length_cons]
        exact ⟨trivial, by omega⟩

/-- One scan step from the head of the list. -/
theorem scanState_cons (st : Bool × Int) (l : List Char) (t : List (List Char)) :
    scanState st (l :: t) = scanState (scanStep st l) t := rfl

/-- Outside a block, lines that do not strip to the guard leave the state
`(false, 0)`. -/
theorem scanState_outside (pre : List (List Char))
    (h : ∀ l ∈ pre, pyStrip l ≠ guardChars) :
    scanState (false, 0) pre = (false, 0) := by
  induction pre with
  | nil => rfl
  | cons l t ih =>
    have hl : pyStrip l ≠ guardChars := h l (by simp)
    have hstep : scanStep (false, 0) l = (false, 0) := by simp [scanStep, hl]
    rw [scanState_cons, hstep]
    exact ih (fun x hx => h x (by simp [hx]))

/-- Inside the block at depth `d ≥ 1`, scanning a guard-free line list whose
prefix depth deltas keep `d + deltaSum` at `≥ 1` stays inside the block, with
depth exactly `d + deltaSum`. -/
theorem scanState_inside :
    ∀ (p : List (List Char)) (d : Int), 1 ≤ d →
      (∀ l ∈ p, pyStrip l ≠ guardChars) →
      (∀ q, q <+: p → 1 ≤ d + deltaSum q) →
      scanState (true, d) p = (true, d + deltaSum p) := by
  intro p
  induction p with
  | nil =>
    intro d _ _ _
    simp [scanState, deltaSum]
  | cons l t ih =>
    intro d hd hng hpre
    have hl : pyStrip l ≠ guardChars := hng l (by simp)
    have hng' : ∀ x ∈ t, pyStrip x ≠ guardChars := fun x hx => hng x (by simp [hx])
    rw [scanState_cons, deltaSum_cons]
    by_cases hif : ifChars.isPrefixOf (pyStrip l) = true
    · have hdelta : lineDelta l = 1 := by simp [lineDelta, hif]
      have hstep : scanStep (true, d) l = (true, d + 1) := by simp [scanStep, hl, hif]
      have hpre' : ∀ q, q <+: t → 1 ≤ (d + 1) + deltaSum q := by
        intro q hq
        have h := hpre (l :: q) ((List.cons_prefix_cons).mpr ⟨rfl, hq⟩)
        rw [deltaSum_cons, hdelta] at h
        omega
      rw [hstep, ih (d + 1) (by omega) hng' hpre', hdelta]
      simp only [Prod.mk.injEq]
      exact ⟨trivial, by omega⟩
    · by_cases hend : endifChars.isPrefixOf (pyStrip l) = true
      · have hdelta : lineDelta l = -1 := by simp [lineDelta, hif, hend]
        have h2 : 1 ≤ d + deltaSum [l] := hpre [l] ⟨t, rfl⟩
        have h3 : deltaSum [l] = -1 := by simp [deltaSum, lineDelta, hif, hend]
        rw [h3] at h2
        have hone : ¬ (d - 1 = 0) := by omega
        have hstep : scanStep (true, d) l = (true, d - 1) := by
          simp [scanStep, hl, hif, hend, hone]
        have hpre' : ∀ q, q <+: t → 1 ≤ (d - 1) + deltaSum q := by
          intro q hq
          have h := hpre (l :: q) ((List.cons_prefix_cons).mpr ⟨rfl, hq⟩)
          rw [deltaSum_cons, hdelta] at h
          omega
        rw [hstep, ih (d - 1) (by omega) hng' hpre', hdelta]
        simp only [Prod.mk.injEq]
        exact ⟨trivial, by omega⟩
      · have hdelta : lineDelta l = 0 := by simp [lineDelta, hif, hend]
        have hstep : scanStep (true, d) l = (true, d) := by
          simp [scanStep, hl, hif, hend]
        have hpre' : ∀ q, q <+: t → 1 ≤ d + deltaSum q := by
          intro q hq
          have h := hpre (l :: q) ((List.cons_prefix_cons).mpr ⟨rfl, hq⟩)
          rw [deltaSum_cons, hdelta] at h
          omega
        rw [hstep, ih d hd hng' hpre', hdelta]
        simp only [Prod.mk.injEq]
        exact ⟨trivial, by omega⟩

/-- Claim C1: for a file `pre ++ [guard] ++ body ++ [endif] ++ post` whose
guarded region body consists of well-nested conditional directives (every
prefix keeps the depth at `≥ 1`, the total delta is `0`, and no body line
strips to the guard token), the output keeps the opening guard line, the
inserted comment right after it, and the outermost closing line; every body
line is discarded (the removed count is exactly `body.length`); and the scan
state is still inside the block (depth never returned to zero) after any
prefix of the body — so no nested `#endif` is mistaken for the terminator. -/
theorem strip_guarded_region_thm (pre body post : List (List Char)) (g e : List Char)
    (hpre : ∀ l ∈ pre, pyStrip l ≠ guardChars)
    (hg : pyStrip g = guardChars)
    (hbody : ∀ l ∈ body, pyStrip l ≠ guardChars)
    (hdepth : ∀ p ∈ body.inits, 0 ≤ deltaSum p)
    (hclose : deltaSum body = 0)
    (he : endifChars.isPrefixOf (pyStrip e) = true)
    (hei : ifChars.isPrefixOf (pyStrip e) = false) :
    stripLines (pre ++ g :: (body ++ e :: post)) =
      (pre ++ g :: commentChars :: e :: (stripLines post).1,
        body.length + (stripLines post).2) ∧
    ∀ p ∈ body.inits, (scanState (false, 0) (pre ++ g :: p)).1 = true := by
  have hdepth' : ∀ p, p <+: body → 1 ≤ 1 + deltaSum p := by
    intro p hp
    have h := hdepth p ((List.mem_inits _ _).mpr hp)
    omega
  constructor
  · have h3 := stripGo_inside_closes e post he hei body 1 le_rfl hbody hdepth'
      (by omega)
    have h2 : stripGo false 0 (g :: (body ++ e :: post)) =
        (g :: commentChars :: e :: (stripGo false 0 post).1,
          body.length + (stripGo false 0 post).2) := by
      simp [stripGo, hg, h3]
    have h1 := stripGo_copies_outside pre (g :: (body ++ e :: post)) hpre
    show stripGo false 0 (pre ++ g :: (body ++ e :: post)) =
      (pre ++ g :: commentChars :: e :: (stripGo false 0 post).1,
        body.length + (stripGo false 0 post).2)
    rw [h1, h2]
  · intro p hp
    have hp' : p <+: body := (List.mem_inits _ _).mp hp
    have hmem : ∀ l ∈ p, pyStrip l ≠ guardChars := fun l hl => hbody l (hp'.subset hl)
    have hpre2 : ∀ q, q <+: p → 1 ≤ 1 + deltaSum q := fun q hq => hdepth' q (hq.trans hp')
    have hsc : scanState (false, 0) (pre ++ g :: p) =
        scanState (scanState (false, 0) pre) (g :: p) := by
      simp [scanState, List.foldl_append]
    have hstep : scanStep (false, 0) g = (true, 1) := by simp [scanStep, hg]
    rw [hsc, scanState_outside pre hpre, scanState_cons, hstep,
      scanState_inside p 1 le_rfl hmem hpre2]

/-- Witness for C1 at a concrete file with a two-level-nested guarded region:
the guard, the comment, and the outermost closing line survive; all four body
lines are removed; the scan never leaves the block inside the body. -/
theorem strip_guarded_region_witness :
    stripLines (["int a;".data] ++ "#ifndef USE_WEIGHTS_FILE".data ::
        (["#ifdef X".data, "w1".data, "#endif".data, "w2".data] ++
          "#endif /* USE_WEIGHTS_FILE */".data :: ["int b;".data])) =
      (["int a;".data] ++ "#ifndef USE_WEIGHTS_FILE".data :: commentChars ::
          "#endif /* USE_WEIGHTS_FILE */".data :: (stripLines ["int b;".data]).1,
        4 + (stripLines ["int b;".data]).2) ∧
    ∀ p ∈ (["#ifdef X".data, "w1".data, "#endif".data, "w2".data] : List (List Char)).inits,
      (scanState (false, 0) (["int a;".data] ++ "#ifndef USE_WEIGHTS_FILE".data :: p)).1 =
        true :=
  strip_guarded_region_thm ["int a;".data]
    ["#ifdef X".data, "w1".data, "#endif".data, "w2".data] ["int b;".data]
    "#ifndef USE_WEIGHTS_FILE".data "#endif /* USE_WEIGHTS_FILE */".data
    (by decide) (by decide) (by decide) (by decide) (by decide) (by decide) (by decide)

/-! ## Claim C3 -/

/-- A text has zero UTF-8 bytes exactly when it is empty. -/
theorem utf8Len_eq_zero_iff (l : List Char) : utf8Len l = 0 ↔ l = [] := by
  cases l with
  | nil => simp [utf8Len]
  | cons c t =>
    simp only [utf8Len, List.map_cons, List.sum_cons]
    have h := Char.utf8Size_pos c
    constructor
    · intro h2
      omega
    · intro h2
      exact absurd h2 (by simp)

/-- The first component of the totals fold of `strip_main` is the sum of the
per-file original sizes (a zero original contributes zero either way). -/
theorem strip_main_total (fs : String → Option (List Char)) (names : List String) :
    ∀ acc : Nat × Nat,
      (names.foldl
        (fun acc name =>
          let r := fileSizes fs name
          if 0 < r.1 then (acc.1 + r.1, acc.2 + r.2) else acc)
        acc).1 =
      acc.1 + (names.map (fun n => (fileSizes fs n).1)).sum := by
  induction names with
  | nil => intro acc; simp
  | cons n t ih =>
    intro acc
    rw [List.foldl_cons, List.map_cons, List.sum_cons]
    by_cases h : 0 < (fileSizes fs n).1
    · simp only [h, if_true]
      rw [ih]
      omega
    · have h0 : (fileSizes fs n).1 = 0 := by omega
      simp only [h, if_false]
      rw [ih, h0]
      omega

/-- Counterexample to C3 as stated: with the vendored DNN directory present
but every listed data file absent, `main` does not exit 0 — the final
aggregate report divides by `total_original = 0` and the run dies with an
uncaught `ZeroDivisionError` (process status 1, with the directory present). -/
theorem strip_main_counterexample :
    strip_main true (fun _ => none) = .divByZero ∧
    strip_main true (fun _ => none) ≠ .exitZero := by
  constructor
  · rfl
  · decide

/-- Amended C3: `main` exits 1 when the vendored directory is absent; with the
directory present it exits 0 when at least one listed file is present with
non-empty content, and raises `ZeroDivisionError` (an uncaught failure, not a
clean exit 0) when every listed file is missing or empty. -/
theorem strip_main_exit_policy_thm (fs : String → Option (List Char)) :
    strip_main false fs = .exitOne ∧
    ((∃ n ∈ DATA_FILES, ∃ c, fs n = some c ∧ c ≠ []) →
      strip_main true fs = .exitZero) ∧
    ((∀ n ∈ DATA_FILES, ∀ c, fs n = some c → c = []) →
      strip_main true fs = .divByZero) := by
  refine ⟨rfl, ?_, ?_⟩
  · rintro ⟨n, hn, c, hc, hne⟩
    have hpos : 0 < (fileSizes fs n).1 := by
      simp only [fileSizes, hc, strip_file_sizes]
      have h := (utf8Len_eq_zero_iff c).not
      have : utf8Len c ≠ 0 := fun h0 => hne ((utf8Len_eq_zero_iff c).mp h0)
      omega
    have hmem : (fileSizes fs n).1 ∈ DATA_FILES.map (fun n => (fileSizes fs n).1) :=
      List.mem_map_of_mem _ hn
    have hle : (fileSizes fs n).1 ≤ (DATA_FILES.map (fun n => (fileSizes fs n).1)).sum :=
      List.single_le_sum (fun x _ => Nat.zero_le x) _ hmem
    have htot := strip_main_total fs DATA_FILES (0, 0)
    simp only [strip_main, Bool.true_eq_false, if_false]
    rw [htot]
    have hnz : ¬ (0 + (DATA_FILES.map (fun n => (fileSizes fs n).1)).sum = 0) := by omega
    simp [hnz]
    omega
  · intro h
    have hz : ∀ n ∈ DATA_FILES, (fileSizes fs n).1 = 0 := by
      intro n hn
      cases hc : fs n with
      | none => simp [fileSizes, hc]
      | some c =>
        have hce : c = [] := h n hn c hc
        subst hce
        simp [fileSizes, hc, strip_file_sizes, utf8Len]
    have hsum : (DATA_FILES.map (fun n => (fileSizes fs n).1)).sum = 0 := by
      rw [List.sum_eq_zero_iff]
      intro x hx
      obtain ⟨n, hn, rfl⟩ := List.mem_map.mp hx
      exact hz n hn
    have htot := strip_main_total fs DATA_FILES (0, 0)
    simp only [strip_main, Bool.true_eq_false, if_false]
    rw [htot, hsum]
    simp

/-- Witness for the amended C3: one non-empty present file gives exit 0; the
all-empty filesystem raises the division error. -/
theorem strip_main_exit_policy_witness :
    strip_main true (fun n => if n = "plc_data.c" then some "abc".data else none) =
      .exitZero ∧
    strip_main true (fun _ => (none : Option (List Char))) = .divByZero := by
  constructor
  · exact (strip_main_exit_policy_thm
      (fun n => if n = "plc_data.c" then some "abc".data else none)).2.1
      ⟨"plc_data.c", by decide, "abc".data, by decide, by decide⟩
  · exact (strip_main_exit_policy_thm (fun _ => none)).2.2 (by simp)

/-! ## Claim C9 -/

/-- Claim C9: the version checker returns exit code 0 when the parsed manifest
commit equals the upstream lookup value and 1 when they differ; when the
manifest is absent or holds no `commit:` line (`get_vendored_commit` yields
`none`) it returns 1 whatever the lookup argument is — in particular also for
a failing lookup, i.e. without consulting the remote at all. -/
theorem version_check_exit_thm (mf : Option (List (List Char)))
    (lookup : Except Unit (List Char)) (v l : List Char) :
    (get_vendored_commit mf = some v → lookup = .ok l →
      (check_main mf lookup).1 = .ok (if v = l then 0 else 1)) ∧
    (get_vendored_commit mf = none → (check_main mf lookup).1 = .ok 1) := by
  constructor
  · intro h1 h2
    subst h2
    simp [check_main, h1]
  · intro h1
    simp [check_main, h1]

/-- Witness for C9: equal commits give exit 0; a missing manifest gives exit 1
even when the lookup would fail. -/
theorem version_check_exit_witness :
    (check_main (some ["commit: abc".data]) (.ok "abc".data)).1 = .ok 0 ∧
    (check_main none (.error ())).1 = .ok 1 := by
  constructor
  · have h := (version_check_exit_thm (some ["commit: abc".data]) (.ok "abc".data)
      "abc".data "abc".data).1 (by decide) rfl
    simpa using h
  · exact (version_check_exit_thm none (.error ()) [] []).2 rfl

/-! ## Claim C4 -/

/-- Counterexample to C4 as stated: the vendoring tool also performs the
remote latest-revision lookup, but a transport error there does not propagate:
`main` catches it, substitutes the sentinel sha, and the run continues to
mutate local state — starting from an empty state it ends with exit 0 and a
replaced vendored tree, manifest, and bindings file. -/
theorem vendor_lookup_error_counterexample :
    (vendor_main false false (.error "transport error") (.ok "abc".data)
      ⟨false, none, false⟩).1 = .ok 0 ∧
    (vendor_main false false (.error "transport error") (.ok "abc".data)
      ⟨false, none, false⟩).2 ≠ (⟨false, none, false⟩ : VendorFS) := by
  constructor
  · rfl
  · decide

/-- Amended C4: for the version checker a transport error propagates as an
uncaught failure and the local state is returned untouched; for the vendoring
tool the lookup error is caught — the run continues, exits 0, and rewrites the
vendored tree, manifest and bindings from the fresh clone. -/
theorem lookup_error_propagation_thm (mf : Option (List (List Char)))
    (v : List Char) (fs : VendorFS) (c : List Char) (e : String) :
    (get_vendored_commit mf = some v →
      check_main mf (.error ()) = (.error (), mf)) ∧
    (vendor_main false false (.error e) (.ok c) fs).1 = .ok 0 ∧
    (vendor_main false false (.error e) (.ok c) fs).2 =
      { fs with opusDir := true, manifestCommit := some c, bindings := true } := by
  refine ⟨?_, ?_, ?_⟩
  · intro h
    simp [check_main, h]
  · rcases fs with ⟨o, mc, b⟩
    cases mc <;> rfl
  · rcases fs with ⟨o, mc, b⟩
    cases mc <;> rfl

/-- Witness for the amended C4 at concrete inputs. -/
theorem lookup_error_propagation_witness :
    check_main (some ["commit: abc".data]) (.error ()) =
      (.error (), some ["commit: abc".data]) ∧
    (vendor_main false false (.error "boom") (.ok "def".data)
      ⟨true, some "abc".data, false⟩).1 = .ok 0 := by
  have h := lookup_error_propagation_thm (some ["commit: abc".data]) "abc".data
    ⟨true, some "abc".data, false⟩ "def".data "boom"
  exact ⟨h.1 (by decide), h.2.1⟩

/-! ## Claim C8 -/

/-- Claim C8: on every exit path of `generate_weights` — any step failing or
the full pipeline succeeding — the temporary working directory is removed
before the function returns. -/
theorem temp_cleanup_thm (env : GenEnv) : (generate_weights env).tempRemoved = true := by
  rcases env with ⟨vc, cOk, mh, dOk, src, cf, cok, rok, blob, md5⟩
  dsimp only [generate_weights]
  repeat' split
  all_goals rfl

/-! ## Claim C7 -/

/-- Claim C7: when `generate_weights` succeeds having resolved model hash `h`
and produced blob `b`, the returned paths and written files are exactly the
blob `opus_data-<h>.bin` and the sidecar named by appending `.md5`, whose
content is one newline-terminated line `digest ++ two spaces ++ blob name`
with the digest produced by the external MD5 of the blob; the no-hash branch
of the name computation yields `opus_data.bin`. -/
theorem weights_output_naming_thm (env : GenEnv) (h : String) (b : List Nat)
    (p : String × String)
    (h1 : env.modelHash = some h) (h2 : env.blob = some b)
    (h3 : (generate_weights env).result = .ok p) :
    p = ("opus_data-" ++ h ++ ".bin", "opus_data-" ++ h ++ ".bin" ++ ".md5") ∧
    (generate_weights env).outputs =
      [("opus_data-" ++ h ++ ".bin", .binF b),
       ("opus_data-" ++ h ++ ".bin" ++ ".md5",
        .textF (env.md5hex b ++ "  " ++ ("opus_data-" ++ h ++ ".bin") ++ "\n"))] ∧
    binBlobName none = "opus_data.bin" := by
  rcases env with ⟨vc, cOk, mh, dOk, src, cf, cok, rok, blob, md5⟩
  simp only at h1 h2 ⊢
  subst h1
  subst h2
  cases cOk with
  | false => exact Except.noConfusion h3
  | true =>
    cases dOk with
    | false => exact Except.noConfusion h3
    | true =>
      cases src with
      | none => exact Except.noConfusion h3
      | some s =>
        dsimp only [generate_weights] at h3 ⊢
        rcases hpa : apply_binary_mode_patch s with e1 | s1
        · rw [hpa] at h3
          exact Except.noConfusion h3
        · rw [hpa] at h3
          dsimp only at h3 ⊢
          rcases hpb : apply_bwe_weights_patch s1 with e2 | s2
          · rw [hpb] at h3
            exact Except.noConfusion h3
          · rw [hpb] at h3
            cases cf with
            | false => exact Except.noConfusion h3
            | true =>
              cases cok with
              | false => exact Except.noConfusion h3
              | true =>
                cases rok with
                | false => exact Except.noConfusion h3
                | true =>
                  have h4 : (binBlobName (some h), binBlobName (some h) ++ ".md5") = p :=
                    Except.ok.inj h3
                  subst h4
                  exact ⟨rfl, rfl, rfl⟩

/-- Concrete content for the C7 witness: the fopen anchor and the two BWE
anchors, so both patches succeed. -/
def genWitnessSrc : List Char :=
  oldFopenLine ++ '\n' :: (oldIncludeBlock ++ '\n' :: oldMainBlock)

/-- Concrete environment for the C7 witness: all external steps succeed. -/
def genWitnessEnv : GenEnv :=
  { vendoredCommit := some "c0ffee"
    cloneOk := true
    modelHash := some "abc123"
    downloadOk := true
    writeWeightsSrc := some genWitnessSrc
    compilerFound := true
    compileOk := true
    runOk := true
    blob := some [1, 2, 3]
    md5hex := fun _ => "0123456789abcdef0123456789abcdef" }

/-- Witness for C7: on the concrete environment the generator writes exactly
the hash-named blob and its `.md5` sidecar in the two-column format. -/
theorem weights_output_naming_witness :
    (generate_weights genWitnessEnv).outputs =
      [("opus_data-abc123.bin", .binF [1, 2, 3]),
       ("opus_data-abc123.bin.md5",
        .textF "0123456789abcdef0123456789abcdef  opus_data-abc123.bin\n")] := by
  have h := weights_output_naming_thm genWitnessEnv "abc123" [1, 2, 3]
    ("opus_data-abc123.bin", "opus_data-abc123.bin.md5") rfl rfl (by rfl)
  exact h.2.1

end RustOpus
